import Mathlib

/-!
Verification of the Research-Hub plagiarism / scoring core.

Shallow embedding of `backend/app/services/plagiarism_detection_service.py`,
`backend/app/services/topic_discovery_service.py` and
`backend/app/services/journal_recommendation_service.py`.

Modelling conventions:
* Python `str` is embedded as `List Char`; `str.split()` (split on whitespace
  runs, dropping empties) is `wordsBy wsB`; `str.strip()` is `pyStrip`;
  `str.split(sep)` for the two-character separator `"\n\n"` is `splitNN`;
  `re.split(r"[.!?]+", s)` (split on maximal runs of the class, keeping the
  possibly-empty first/last pieces) is `reSplit punctB`.
* Python floats are embedded as `ℚ` (exact arithmetic; IEEE rounding is not
  modelled).  `round(x, 2)` is embedded as `round2` (round to a multiple of
  1/100; Python uses round-half-to-even on floats, the tie case is the only
  difference and none of the verified properties depends on it).
* Python dicts built by this code are embedded as structures whose fields are
  the keys the code reads; `dict.get(k, default)` on a possibly-absent key is
  embedded either by an `Option` field or, where every constructed record
  carries the key, by a plain field.
* External collaborators (Cohere embeddings, Semantic Scholar search, the
  cosine-similarity kernel which is irrational-valued float code) are opaque
  oracles passed in as an explicit `SemanticOracle` record; a call that may
  raise returns `Except`.
-/

/-- ASCII whitespace recognised by Python `str.split()` / `str.strip()`
(space, tab, newline, carriage return, vertical tab, form feed). -/
def wsB (c : Char) : Bool :=
  c == ' ' || c == '\t' || c == '\n' || c == '\r' ||
    c == Char.ofNat 11 || c == Char.ofNat 12

/-- The sentence-delimiter class `[.!?]` of `re.split(r"[.!?]+", ...)`. -/
def punctB (c : Char) : Bool :=
  c == '.' || c == '!' || c == '?'

/-- Whitespace or sentence punctuation: the separator class under which the
chunking round-trip law holds. -/
def sepB (c : Char) : Bool :=
  wsB c || punctB c

/-- Worker for `wordsBy`: `cur` holds the (reversed) word being scanned. -/
def wordsByAux (p : Char → Bool) (cur : List Char) : List Char → List (List Char)
  | [] => if cur.isEmpty then [] else [cur.reverse]
  | c :: rest =>
    if p c then
      if cur.isEmpty then wordsByAux p [] rest
      else cur.reverse :: wordsByAux p [] rest
    else wordsByAux p (c :: cur) rest

/-- Split on maximal runs of separators, dropping empty tokens.
`wordsBy wsB` is Python `str.split()` (no argument). -/
def wordsBy (p : Char → Bool) (s : List Char) : List (List Char) :=
  wordsByAux p [] s

/-- Python `str.strip()`: drop leading and trailing whitespace. -/
def pyStrip (s : List Char) : List Char :=
  ((s.dropWhile wsB).reverse.dropWhile wsB).reverse

/-- Worker for `splitNN`; `pending` records a just-seen `'\n'` that may be the
first half of a `"\n\n"` separator, `cur` is the reversed current piece. -/
def splitNNAux (pending : Bool) (cur : List Char) : List Char → List (List Char)
  | [] => [(if pending then '\n' :: cur else cur).reverse]
  | c :: rest =>
    if pending then
      if c == '\n' then cur.reverse :: splitNNAux false [] rest
      else splitNNAux false (c :: '\n' :: cur) rest
    else
      if c == '\n' then splitNNAux true cur rest
      else splitNNAux false (c :: cur) rest

/-- Python `text.split("\n\n")`: split on non-overlapping occurrences of the
two-character separator, scanning left to right, keeping empty pieces. -/
def splitNN (s : List Char) : List (List Char) :=
  splitNNAux false [] s

/-- Worker for `reSplit`; `inRun` means we are inside a separator run (the
piece before it has already been emitted), `cur` is the reversed current
piece. -/
def reSplitAux (p : Char → Bool) (inRun : Bool) (cur : List Char) :
    List Char → List (List Char)
  | [] => [cur.reverse]
  | c :: rest =>
    if inRun then
      if p c then reSplitAux p true cur rest
      else reSplitAux p false [c] rest
    else
      if p c then cur.reverse :: reSplitAux p true [] rest
      else reSplitAux p false (c :: cur) rest

/-- Python `re.split(r"[X]+", s)` for a character class `X` given by `p`:
split on maximal non-empty runs of class characters, keeping the (possibly
empty) leading and trailing pieces. -/
def reSplit (p : Char → Bool) (s : List Char) : List (List Char) :=
  reSplitAux p false [] s

/-- Python `" ".join(parts)`. -/
def joinSpace : List (List Char) → List Char
  | [] => []
  | [a] => a
  | a :: b :: rest => a ++ ' ' :: joinSpace (b :: rest)

/-- Python `str.lower()` on the ASCII range (all text handled by the claim
patterns is ASCII). -/
def asciiLower (c : Char) : Char :=
  if 'A' ≤ c ∧ c ≤ 'Z' then Char.ofNat (c.toNat + 32) else c

/-- The greedy sentence-regrouping loop of `_chunk_text` (the `for sent in
sentences:` loop plus the final flush).  `cur` is `current_chunk`, `curLen`
is `current_length`; emitted chunks are returned in order. -/
def chunkLoop (minSize : ℕ) (cur : List (List Char)) (curLen : ℕ) :
    List (List Char) → List (List Char)
  | [] => if cur.isEmpty then [] else [joinSpace cur]
  | sent :: rest =>
    let s := pyStrip sent
    if s.isEmpty then chunkLoop minSize cur curLen rest
    else
      let wc := (wordsBy wsB s).length
      if minSize ≤ curLen + wc then
        (if cur.isEmpty then [] else [joinSpace cur]) ++
          chunkLoop minSize [s] wc rest
      else chunkLoop minSize (cur ++ [s]) (curLen + wc) rest

/-- `PlagiarismDetectionService._chunk_text`: split into paragraphs on blank
lines; a paragraph of at least `min_chunk_size` words is one chunk verbatim,
a shorter one is split into sentences on `[.!?]+` and greedily regrouped. -/
def chunk_text (text : List Char) (min_chunk_size : ℕ) : List (List Char) :=
  let paragraphs := ((splitNN text).map pyStrip).filter (fun p => !p.isEmpty)
  paragraphs.flatMap (fun para =>
    if min_chunk_size ≤ (wordsBy wsB para).length then [para]
    else chunkLoop min_chunk_size [] 0 (reSplit punctB para))

/-- A detection match: embedding of the match dicts built by
`_ngram_detection` and `_semantic_detection`.  The Python field `type` is
called `mtype` (`type` is a Lean keyword); the provenance keys
`source_url` / `source_year` / `source_authors`, present only on semantic
matches, are `Option` / list fields left empty elsewhere. -/
structure Match where
  text : List Char
  source : String
  similarity : ℚ
  start_pos : ℤ
  end_pos : ℤ
  mtype : String
  source_url : Option String
  source_year : Option ℤ
  source_authors : List String
  deriving DecidableEq, Repr

/-- The deduplication key of `_deduplicate_matches`:
`(match.get('text', '')[:50], match.get('source', ''))`. -/
def matchKey (m : Match) : List Char × String :=
  (m.text.take 50, m.source)

/-- The `for match in matches:` loop of `_deduplicate_matches`; `seen` is the
set of keys already seen (membership is all Python uses it for). -/
def dedupGo (seen : List (List Char × String)) : List Match → List Match
  | [] => []
  | m :: rest =>
    if matchKey m ∈ seen then dedupGo seen rest
    else m :: dedupGo (matchKey m :: seen) rest

/-- `PlagiarismDetectionService._deduplicate_matches`. -/
def deduplicate_matches (ms : List Match) : List Match :=
  dedupGo [] ms

/-- Python `round(x, 2)` over `ℚ`: round to a multiple of 1/100 (Python
rounds half to even on floats; only exact half-cent ties differ). -/
def round2 (q : ℚ) : ℚ :=
  (round (q * 100) : ℤ) / 100

/-- The per-match penalty tiers of `_calculate_originality_score`. -/
def matchPenalty (m : Match) : ℚ :=
  if (9 : ℚ)/10 ≤ m.similarity then 10
  else if (8 : ℚ)/10 ≤ m.similarity then 5
  else if (7 : ℚ)/10 ≤ m.similarity then 2
  else 0

/-- `PlagiarismDetectionService._calculate_originality_score`. -/
def calculate_originality_score (text : List Char) (ms : List Match) : ℚ :=
  if text.isEmpty then 0
  else
    let total_words := (wordsBy wsB text).length
    if total_words = 0 then 0
    else
      let matched_words := (ms.map (fun m => (wordsBy wsB m.text).length)).sum
      let base_score : ℚ := 100 - ((matched_words : ℚ) / (total_words : ℚ) * 100)
      let base_score := max 0 (min 100 base_score)
      let penalty := (ms.map matchPenalty).sum
      round2 (max 0 (base_score - penalty))

/-- Association-list bump mirroring `defaultdict(int)` increment, keeping
first-insertion key order. -/
def bumpCount (t : String) : List (String × ℕ) → List (String × ℕ)
  | [] => [(t, 1)]
  | (k, n) :: rest => if k = t then (k, n + 1) :: rest else (k, n) :: bumpCount t rest

/-- Embedding of the statistics dict of `_calculate_statistics`. -/
structure Stats where
  total_words : ℕ
  matched_words : ℕ
  match_percentage : ℚ
  unique_sources : ℕ
  matches_by_type : List (String × ℕ)
  highest_similarity : ℚ
  average_similarity : ℚ
  deriving DecidableEq, Repr

/-- `PlagiarismDetectionService._calculate_statistics`. -/
def calculate_statistics (text : List Char) (ms : List Match) : Stats :=
  let total_words := (wordsBy wsB text).length
  let matched_words := (ms.map (fun m => (wordsBy wsB m.text).length)).sum
  ⟨total_words, matched_words,
    (if 0 < total_words then (matched_words : ℚ) / (total_words : ℚ) * 100 else 0),
    (ms.map (fun m => m.source)).toFinset.card,
    ms.foldl (fun acc m => bumpCount m.mtype acc) [],
    ((ms.map (fun m => m.similarity)).max?).getD 0,
    (if ms.isEmpty then 0
     else (ms.map (fun m => m.similarity)).sum / (ms.length : ℚ))⟩

/-- The n-gram set of a chunk in `_ngram_detection`:
`set(' '.join(words[i:i+n]) for i in range(len(words)-n+1))` over the
lower-cased whitespace-split words.  `len(words)-n+1` is Python `int`
arithmetic, so a negative value gives the empty range. -/
def get_ngrams (text : List Char) (n : ℕ) : Finset (List Char) :=
  let words := wordsBy wsB (text.map asciiLower)
  let k := ((words.length : ℤ) - (n : ℤ) + 1).toNat
  ((List.range k).map (fun i => joinSpace ((words.drop i).take n))).toFinset

/-- One `(i, j)` pair-comparison step of `_ngram_detection`'s nested loop:
`none` when the pair is skipped (an empty n-gram set or similarity below the
threshold), otherwise the emitted match. -/
def ngramPair (chunks : List (List Char)) (n : ℕ) (threshold : ℚ)
    (i j : ℕ) : Option Match :=
  let ci := chunks.getD i []
  let cj := chunks.getD j []
  let ngrams_i := get_ngrams ci n
  let ngrams_j := get_ngrams cj n
  if ngrams_i = ∅ ∨ ngrams_j = ∅ then none
  else
    let intersection := (ngrams_i ∩ ngrams_j).card
    let union := (ngrams_i ∪ ngrams_j).card
    let similarity : ℚ := if 0 < union then (intersection : ℚ) / (union : ℚ) else 0
    if threshold ≤ similarity then
      some ⟨ci.take 200, "Internal chunk " ++ toString j, similarity,
        (i : ℤ) * 500, (i : ℤ) * 500 + (ci.length : ℤ), "near_duplicate",
        none, none, []⟩
    else none

/-- `PlagiarismDetectionService._ngram_detection`: Jaccard overlap of word
n-gram sets over every chunk pair `i < j`. -/
def ngram_detection (chunks : List (List Char)) (n : ℕ) (threshold : ℚ) :
    List Match :=
  (List.range chunks.length).flatMap (fun i =>
    ((List.range chunks.length).drop (i + 1)).filterMap (fun j =>
      ngramPair chunks n threshold i j))

/-- `PlagiarismDetectionService._fingerprint_detection`: the loop computes an
md5 fingerprint per chunk but never appends to `matches`, so the function
returns the empty list unconditionally. -/
def fingerprint_detection (_chunks : List (List Char)) : List Match :=
  []

/-- A paper record returned by the Semantic Scholar search, restricted to the
keys `_semantic_detection` reads (each read through `.get` with a default;
`title`/`abstract` default to the empty string, so they are plain fields). -/
structure Paper where
  title : String
  abstract : String
  url : Option String
  year : Option ℤ
  authors : List String
  deriving DecidableEq, Repr

/-- The external collaborators of `_semantic_detection`: the Cohere embedding
client (vectors of an opaque type `Vec`), the Semantic Scholar search client,
and the float cosine-similarity kernel.  Calls that can raise return
`Except`. -/
structure SemanticOracle (Vec : Type) where
  embed_documents : List (List Char) → Except String (List Vec)
  search_papers : List Char → Except String (List Paper)
  embed_queries : List String → Except String (List Vec)
  cosine : Vec → Vec → ℚ

/-- `f"{paper.get('title', '')} {paper.get('abstract', '')}"`. -/
def paperText (p : Paper) : String :=
  p.title ++ " " ++ p.abstract

/-- The body of the inner `try:` of `_semantic_detection` for chunk `i`: any
failure (search error, paper-embedding error, or an index error on
`chunk_embeddings[i]`) is caught by the inner `except`, which logs and
yields no matches for this chunk. -/
def processChunk {Vec : Type} (o : SemanticOracle Vec) (threshold : ℚ)
    (chunkEmbeddings : List Vec) (i : ℕ) (chunk : List Char) : List Match :=
  match o.search_papers (chunk.take 500) with
  | .error _ => []
  | .ok papers =>
    if papers.isEmpty then []
    else
      let valid := papers.filterMap (fun p =>
        if (pyStrip (paperText p).toList).isEmpty then none
        else some ((paperText p).toList.take 2000, p))
      if valid.isEmpty then []
      else
        match o.embed_queries (valid.map (fun v => String.mk v.1)) with
        | .error _ => []
        | .ok paperEmbeddings =>
          match chunkEmbeddings.get? i with
          | none => []
          | some ce =>
            let similarities := paperEmbeddings.map (fun pe => o.cosine ce pe)
            ((valid.map Prod.snd).zip similarities).filterMap (fun pair =>
              if threshold ≤ pair.2 then
                some ⟨chunk.take 200, pair.1.title, pair.2,
                  (i : ℤ) * 500, (i : ℤ) * 500 + (chunk.length : ℤ),
                  (if pair.2 < (9 : ℚ)/10 then "paraphrase" else "high_similarity"),
                  pair.1.url, pair.1.year, pair.1.authors.take 3⟩
              else none)

/-- `PlagiarismDetectionService._semantic_detection`.  Returns `[]` at once
when `check_online` is false or no Cohere client is configured; else embeds
the first 10 chunks in one batch (a failure there is caught by the outer
`except`, returning `[]`) and then processes each chunk independently via
`processChunk`.  The function is total: every Python exception path is a
caught branch. -/
def semantic_detection {Vec : Type} (o : SemanticOracle Vec)
    (cohereConfigured : Bool) (chunks : List (List Char))
    (check_online : Bool) (threshold : ℚ) : List Match :=
  if !check_online || !cohereConfigured then []
  else
    let chunks_to_check := chunks.take 10
    match o.embed_documents (chunks_to_check.map (fun c => c.take 2000)) with
    | .error _ => []
    | .ok chunkEmbeddings =>
      chunks_to_check.enum.flatMap (fun ic =>
        processChunk o threshold chunkEmbeddings ic.1 ic.2)

/-- The result dict of `check_plagiarism`.  The Python key `matches` is
called `matches_list` (`matches` is a Lean keyword). -/
structure CheckResult where
  originality_score : ℚ
  total_matches : ℕ
  matches_list : List Match
  statistics : Stats
  text_length : ℕ
  word_count : ℕ
  language : String
  deriving DecidableEq, Repr

/-- `PlagiarismDetectionService.check_plagiarism`: chunk, run the three
detection layers (semantic only when a Cohere client is configured),
deduplicate, score. -/
def check_plagiarism {Vec : Type} (o : SemanticOracle Vec)
    (cohereConfigured : Bool) (text : List Char) (language : String)
    (check_online : Bool) : CheckResult :=
  let chunks := chunk_text text 100
  let fingerprint_matches := fingerprint_detection chunks
  let ngram_matches := ngram_detection chunks 5 ((3 : ℚ)/5)
  let semantic_matches :=
    if cohereConfigured then
      semantic_detection o cohereConfigured chunks check_online ((3 : ℚ)/4)
    else []
  let all_matches := fingerprint_matches ++ ngram_matches ++ semantic_matches
  let unique_matches := deduplicate_matches all_matches
  ⟨calculate_originality_score text unique_matches,
    unique_matches.length, unique_matches,
    calculate_statistics text unique_matches,
    text.length, (wordsBy wsB text).length, language⟩

/-- `s1 in s2` on `List Char` (substring containment), the semantics of
`re.search` for a literal pattern. -/
def isPrefixB : List Char → List Char → Bool
  | [], _ => true
  | _ :: _, [] => false
  | a :: as, b :: bs => a == b && isPrefixB as bs

/-- Substring containment test. -/
def containsSub (needle : List Char) : List Char → Bool
  | [] => isPrefixB needle []
  | c :: rest => isPrefixB needle (c :: rest) || containsSub needle rest

/-- The `claim_patterns` of `_identify_claims`, expanded from regular
expressions into literal alternatives: each pattern is a regex built from
literals, optional single letters (`s?`) and literal alternations
(`(?:a|b)`), so `re.search(pat, s, re.IGNORECASE)` holds iff the lower-cased
sentence contains one of the expanded literals as a substring.
Pattern 1 `research shows?`: a match of the optional-`s` form always
contains the `s`-less literal, so one literal suffices; likewise pattern 3
`evidence suggests?` and the trailing alternatives of patterns 2, 5, 6
(`shown|demonstrated|...`), which are kept as distinct literals. -/
def claimPatternLiterals : List String :=
  ["research show",
   "studie shown", "studie demonstrated", "studie found", "studie revealed",
   "studie have shown", "studie have demonstrated", "studie have found",
   "studie have revealed",
   "studies shown", "studies demonstrated", "studies found", "studies revealed",
   "studies have shown", "studies have demonstrated", "studies have found",
   "studies have revealed",
   "evidence suggest",
   "according to",
   "it is shown", "it is demonstrated", "it is proven",
   "it has been shown", "it has been demonstrated", "it has been proven",
   "experiment show", "experiment demonstrate",
   "experiments show", "experiments demonstrate"]

/-- `any(re.search(pattern, sentence, re.IGNORECASE) for pattern in
claim_patterns)`. -/
def matchesClaimPattern (sentence : List Char) : Bool :=
  let lower := sentence.map asciiLower
  claimPatternLiterals.any (fun lit => containsSub lit.toList lower)

/-- `PlagiarismDetectionService._identify_claims`: split into sentences on
`[.!?]+`, strip, keep sentences of at least 5 words matching one of the
evidentiary patterns, first 10 in document order. -/
def identify_claims (text : List Char) : List (List Char) :=
  ((reSplit punctB text).filterMap (fun sentence =>
    let s := pyStrip sentence
    if (wordsBy wsB s).length < 5 then none
    else if matchesClaimPattern s then some s
    else none)).take 10

/-- A paper record as consumed by `_calculate_trend_scores`, restricted to
the keys it reads.  `fieldsOfStudy`/`categories` are `Option` (key may be
absent); `concepts` entries model `c.get('display_name')`.  Citation counts
are the nonnegative integers delivered by the academic APIs.  The `published`
ISO date string is modelled by its parsed year (`none` when the key is
absent or `datetime.fromisoformat` fails, which the code swallows). -/
structure TrendPaper where
  fieldsOfStudy : Option (List String)
  categories : Option (List String)
  concepts : Option (List (Option String))
  citationCount : Option ℕ
  cited_by_count : Option ℕ
  year : Option ℤ
  publication_year : Option ℤ
  published_year : Option ℤ
  deriving DecidableEq, Repr

/-- Python truthy-`or` on optional counts: `a or b` with `None` and `0`
falsy. -/
def orElseNat (a : Option ℕ) (b : ℕ) : ℕ :=
  match a with
  | some n => if n = 0 then b else n
  | none => b

/-- `paper.get('citationCount', 0) or paper.get('cited_by_count', 0) or 0`. -/
def resolved_citations (p : TrendPaper) : ℕ :=
  orElseNat p.citationCount (orElseNat p.cited_by_count 0)

/-- `TopicDiscoveryService._get_paper_topics`. -/
def get_paper_topics (p : TrendPaper) : List String :=
  (match p.fieldsOfStudy with
   | some l => if l.isEmpty then [] else l
   | none => []) ++
  (match p.categories with
   | some l => if l.isEmpty then [] else l
   | none => []) ++
  (match p.concepts with
   | some cs =>
     if cs.isEmpty then []
     else cs.filterMap (fun c =>
       match c with
       | some s => if s.isEmpty then none else some s
       | none => none)
   | none => [])

/-- `TopicDiscoveryService._get_paper_year` (`year` is used when truthy,
then `publication_year`, then the parsed `published` date). -/
def get_paper_year (p : TrendPaper) : Option ℤ :=
  match p.year with
  | some y => if y ≠ 0 then some y else
      (match p.publication_year with
       | some z => some z
       | none => p.published_year)
  | none =>
    match p.publication_year with
    | some z => some z
    | none => p.published_year

/-- `year and year >= datetime.now().year - 2` for the recency test;
`currentYear` stands for `datetime.now().year`. -/
def isRecent (currentYear : ℤ) (p : TrendPaper) : Bool :=
  match get_paper_year p with
  | some y => y ≠ 0 && currentYear - 2 ≤ y
  | none => false

/-- `topic_data[topic]['paper_count']`: one increment per occurrence of the
topic in a paper's topic list. -/
def topic_paper_count (papers : List TrendPaper) (t : String) : ℕ :=
  (papers.map (fun p => (get_paper_topics p).count t)).sum

/-- `topic_data[topic]['total_citations']`. -/
def topic_total_citations (papers : List TrendPaper) (t : String) : ℕ :=
  (papers.map (fun p => (get_paper_topics p).count t * resolved_citations p)).sum

/-- `topic_data[topic]['recent_citations']`. -/
def topic_recent_citations (currentYear : ℤ) (papers : List TrendPaper)
    (t : String) : ℕ :=
  (papers.map (fun p =>
    if isRecent currentYear p then (get_paper_topics p).count t * resolved_citations p
    else 0)).sum

/-- `topic_data[topic]['papers']` (one append per topic occurrence). -/
def topic_papers (papers : List TrendPaper) (t : String) : List TrendPaper :=
  papers.flatMap (fun p => List.replicate ((get_paper_topics p).count t) p)

/-- Keys of a Python dict/`Counter` in first-insertion order. -/
def firstSeen (l : List String) : List String :=
  l.foldl (fun acc t => if t ∈ acc then acc else acc ++ [t]) []

/-- Stable insert for a descending insertion sort (an earlier element stays
before later elements with an equal key), mirroring Python's stable
`sorted(..., reverse=True)`. -/
def insertDescBy {α β : Type} [LinearOrder β] (key : α → β) (a : α) :
    List α → List α
  | [] => [a]
  | y :: rest => if key a < key y then y :: insertDescBy key a rest else a :: y :: rest

/-- Stable descending sort by key. -/
def sortDescBy {α β : Type} [LinearOrder β] (key : α → β) (l : List α) : List α :=
  l.foldr (insertDescBy key) []

/-- `Counter(topics).most_common(n)`: (topic, multiplicity) pairs sorted by
count descending (stable on first-insertion order), first `n`. -/
def most_common (n : ℕ) (l : List String) : List (String × ℕ) :=
  ((sortDescBy (fun t => l.count t) (firstSeen l)).map (fun t => (t, l.count t))).take n

/-- One scored topic dict of `_calculate_trend_scores`. -/
structure ScoredTopic where
  topic : String
  score : ℚ
  paper_count : ℕ
  total_citations : ℕ
  avg_citations : ℚ
  frequency : ℕ
  top_papers : List TrendPaper
  deriving DecidableEq, Repr

/-- `TopicDiscoveryService._calculate_trend_scores`; `currentYear` stands
for `datetime.now().year`. -/
def calculate_trend_scores (currentYear : ℤ) (topics : List String)
    (papers : List TrendPaper) : List ScoredTopic :=
  (most_common 100 topics).filterMap (fun tc =>
    let t := tc.1
    let count : ℕ := tc.2
    let paper_count : ℕ := topic_paper_count papers t
    if paper_count < 3 then none
    else
      let total_citations := topic_total_citations papers t
      let recent_citations := topic_recent_citations currentYear papers t
      let frequency_score : ℚ :=
        if papers.isEmpty then 0 else (count : ℚ) / (papers.length : ℚ)
      let citation_score : ℚ :=
        if paper_count = 0 then 0 else (total_citations : ℚ) / (paper_count : ℚ)
      let recency_score : ℚ :=
        if total_citations = 0 then 0
        else (recent_citations : ℚ) / (total_citations : ℚ)
      let frequency_score := min (frequency_score * 10) 1
      let citation_score := min (citation_score / 100) 1
      let recency_score := min recency_score 1
      some ⟨t,
        frequency_score * (3 : ℚ)/10 + citation_score * (4 : ℚ)/10 +
          recency_score * (3 : ℚ)/10,
        paper_count, total_citations,
        (total_citations : ℚ) / (paper_count : ℚ), count,
        (sortDescBy resolved_citations (topic_papers papers t)).take 3⟩)

/-- A journal record of the sample database in
`JournalRecommendationService._load_sample_journals`, restricted to the keys
the scoring/filtering code reads.  Numeric keys that hold `None` in the
database (the arXiv record) are `Option` fields with value `none`; all
listed keys are present in every record, so `.get` defaults never fire. -/
structure Journal where
  id : String
  title : String
  scopus_indexed : Bool
  web_of_science_indexed : Bool
  impact_factor : Option ℚ
  h_index : Option ℚ
  sjr_score : Option ℚ
  open_access : Bool
  apc_amount : ℚ
  avg_time_to_publish_days : ℚ
  acceptance_rate : ℚ
  subjects : List String
  keywords : List String
  is_predatory : Bool
  deriving DecidableEq, Repr

/-- The sample journal database (`_load_sample_journals`). -/
def journal_database : List Journal :=
  [⟨"nature", "Nature", true, true, some ((4996 : ℚ)/100), some 1089, some 20,
     false, 0, 180, 7, ["Multidisciplinary", "Science"],
     ["research", "science", "nature", "multidisciplinary"], false⟩,
   ⟨"plos-one", "PLOS ONE", true, true, some ((324 : ℚ)/100), some 436,
     some ((99 : ℚ)/100), true, 1825, 90, 50, ["Multidisciplinary", "Science"],
     ["open access", "research", "science", "multidisciplinary"], false⟩,
   ⟨"ieee-access", "IEEE Access", true, true, some ((347 : ℚ)/100), some 127,
     some ((587 : ℚ)/1000), true, 1850, 60, 30,
     ["Engineering", "Computer Science", "Technology"],
     ["engineering", "computer science", "technology", "open access"], false⟩,
   ⟨"scientific-reports", "Scientific Reports", true, true,
     some ((438 : ℚ)/100), some 253, some ((973 : ℚ)/1000), true, 2190, 120, 60,
     ["Multidisciplinary", "Science"],
     ["research", "open access", "science"], false⟩,
   ⟨"arxiv", "arXiv (Preprint)", false, false, none, none, none,
     true, 0, 1, 100, ["Physics", "Mathematics", "Computer Science"],
     ["preprint", "research", "open access"], false⟩]

/-- The preference dict of `recommend_journals`; `Option` fields model
absent keys (`.get` defaults: `open_access_only` false,
`exclude_predatory` true). -/
structure Preferences where
  open_access_only : Option Bool
  max_apc : Option ℚ
  min_impact_factor : Option ℚ
  max_time_to_publish : Option ℚ
  required_indexing : Option (List String)
  exclude_predatory : Option Bool

/-- `preferences = {}`. -/
def emptyPreferences : Preferences :=
  ⟨none, none, none, none, none, none⟩

/-- Filtering with a test that can raise (Python list comprehension:
left-to-right, first exception propagates). -/
def filterE {α : Type} (p : α → Except String Bool) : List α → Except String (List α)
  | [] => .ok []
  | x :: rest =>
    match p x with
    | .error e => .error e
    | .ok b =>
      match filterE p rest with
      | .error e => .error e
      | .ok l => .ok (if b then x :: l else l)

/-- `JournalRecommendationService._apply_filters`.  The
`min_impact_factor` comparison `j.get('impact_factor', 0) >= min_if` raises
`TypeError` when the stored value is `None` (the key is present, so the
`.get` default does not apply). -/
def apply_filters (journals : List Journal) (preferences : Preferences) :
    Except String (List Journal) :=
  let f1 : List Journal := if preferences.open_access_only.getD false
            then journals.filter (fun j => j.open_access) else journals
  let f2 : List Journal := match preferences.max_apc with
    | some maxApc => f1.filter (fun j => j.apc_amount ≤ maxApc || !j.open_access)
    | none => f1
  match (match preferences.min_impact_factor with
         | some minIf =>
           filterE (fun (j : Journal) =>
             match j.impact_factor with
             | none => .error "TypeError: NoneType >= float"
             | some v => .ok (minIf ≤ v)) f2
         | none => .ok f2) with
  | .error e => .error e
  | .ok f3 =>
    let f4 : List Journal := match preferences.max_time_to_publish with
      | some d => f3.filter (fun j => j.avg_time_to_publish_days ≤ d)
      | none => f3
    let f5 : List Journal := match preferences.required_indexing with
      | some req =>
        let fa : List Journal := if "Scopus" ∈ req then f4.filter (fun j => j.scopus_indexed) else f4
        if "Web of Science" ∈ req then fa.filter (fun j => j.web_of_science_indexed)
        else fa
      | none => f4
    .ok (if preferences.exclude_predatory.getD true
         then f5.filter (fun j => !j.is_predatory) else f5)

/-- `JournalRecommendationService._calculate_keyword_overlap`: with no paper
keywords, every journal id in `semantic_scores` gets the neutral prior 0.5;
otherwise Jaccard overlap of lower-cased keyword/subject sets per journal of
the database. -/
def calculate_keyword_overlap (paper_keywords : List String)
    (semantic_scores : List (String × ℚ)) (db : List Journal) :
    List (String × ℚ) :=
  if paper_keywords.isEmpty then
    semantic_scores.map (fun kv => (kv.1, (1 : ℚ)/2))
  else
    let paper_set := (paper_keywords.map (fun k => k.map asciiLower)).toFinset
    db.map (fun j =>
      let all_journal_terms :=
        j.keywords.map (fun k => k.map asciiLower) ++
          j.subjects.map (fun s => s.map asciiLower)
      if all_journal_terms.isEmpty then (j.id, 0)
      else
        let journal_set := all_journal_terms.toFinset
        let intersection := (paper_set ∩ journal_set).card
        let union := (paper_set ∪ journal_set).card
        (j.id, if 0 < union then (intersection : ℚ) / (union : ℚ) else 0))

/-- `dict.get(k, d)` over an association list. -/
def lookupD (l : List (String × ℚ)) (k : String) (d : ℚ) : ℚ :=
  match l.find? (fun kv => kv.1 == k) with
  | some kv => kv.2
  | none => d

/-- `JournalRecommendationService._calculate_composite_score`.  The
`impact_factor` argument arrives as `journal.get('impact_factor', 0)`,
which is `None` for the arXiv record; `None / 10.0` raises `TypeError`. -/
def calculate_composite_score (semantic_score keyword_score : ℚ)
    (impact_factor : Option ℚ) (time_to_publish : ℚ) (open_access : Bool)
    (acceptance_rate : ℚ) : Except String ℚ :=
  match impact_factor with
  | none => .error "TypeError: NoneType / float"
  | some impact =>
    let norm_semantic := semantic_score
    let norm_keyword := keyword_score
    let norm_impact := min (impact / 10) 1
    let norm_time : ℚ := 1 - min (time_to_publish / 365) 1
    let norm_oa : ℚ := if open_access then 1 else (1 : ℚ)/2
    let norm_acceptance := acceptance_rate / 100
    .ok (norm_semantic * (35 : ℚ)/100 + norm_keyword * (20 : ℚ)/100 +
      norm_impact * (15 : ℚ)/100 + norm_time * (10 : ℚ)/100 +
      norm_oa * (10 : ℚ)/100 + norm_acceptance * (10 : ℚ)/100)

/-- `JournalRecommendationService._calculate_fit_score`; the h-index boost
test `journal.get('h_index', 0) > 50` raises `TypeError` on a `None`
value. -/
def calculate_fit_score (semantic_score keyword_score : ℚ) (j : Journal) :
    Except String ℚ :=
  let fit := semantic_score * (6 : ℚ)/10 + keyword_score * (4 : ℚ)/10
  match j.h_index with
  | none => .error "TypeError: NoneType > int"
  | some h =>
    let fit := if 50 < h then fit * ((11 : ℚ)/10) else fit
    .ok (min fit 1)

/-- `JournalRecommendationService._estimate_acceptance_probability`. -/
def estimate_acceptance_probability (fit_score : ℚ) (j : Journal) : ℚ :=
  let base_prob := j.acceptance_rate / 100
  let adjustment := (fit_score - (1 : ℚ)/2) * (3 : ℚ)/10
  round2 (max ((5 : ℚ)/100) (min ((95 : ℚ)/100) (base_prob + adjustment)))

/-- One scored journal dict of `recommend_journals` (Python spreads the
journal record and adds the score keys; here the record is nested). -/
structure JournalResult where
  journal : Journal
  semantic_score : ℚ
  keyword_score : ℚ
  composite_score : ℚ
  fit_score : ℚ
  acceptance_probability : ℚ
  deriving DecidableEq, Repr

/-- The body of the scoring loop of `recommend_journals` for one journal. -/
def scoreJournal (semantic_scores keyword_scores : List (String × ℚ))
    (j : Journal) : Except String JournalResult :=
  let semantic_score := lookupD semantic_scores j.id 0
  let keyword_score := lookupD keyword_scores j.id 0
  match calculate_composite_score semantic_score keyword_score
      j.impact_factor j.avg_time_to_publish_days j.open_access
      j.acceptance_rate with
  | .error e => .error e
  | .ok composite =>
    match calculate_fit_score semantic_score keyword_score j with
    | .error e => .error e
    | .ok fit =>
      .ok ⟨j, semantic_score, keyword_score, composite, fit,
        estimate_acceptance_probability fit j⟩

/-- `JournalRecommendationService.recommend_journals`, with the semantic
similarity dict (produced by the external SentenceTransformer embedding
model in `_calculate_semantic_similarity`) supplied as an oracle.  The
scoring loop is `mapM` over `Except`: the first `TypeError` raised for a
journal propagates out, as in Python. -/
def recommend_journals (semantic_scores : List (String × ℚ))
    (paper_abstract : List Char) (paper_keywords : List String)
    (preferences : Preferences) (db : List Journal) :
    Except String (List JournalResult) :=
  if paper_abstract.isEmpty || (wordsBy wsB paper_abstract).length < 10 then
    .error "ValueError: Paper abstract too short for meaningful recommendations"
  else
    let keyword_scores := calculate_keyword_overlap paper_keywords semantic_scores db
    match apply_filters db preferences with
    | .error e => .error e
    | .ok filtered =>
      match filtered.mapM (scoreJournal semantic_scores keyword_scores) with
      | .error e => .error e
      | .ok scored =>
        .ok ((sortDescBy (fun r => r.composite_score) scored).take 20)

/-! ## Helper lemmas: rounding and the originality score -/

theorem round2_mono {a b : ℚ} (h : a ≤ b) : round2 a ≤ round2 b := by
  unfold round2
  have h1 : round (a * 100) ≤ round (b * 100) := by
    rw [round_eq, round_eq]
    exact Int.floor_le_floor (by linarith)
  have h2 : ((round (a * 100) : ℤ) : ℚ) ≤ ((round (b * 100) : ℤ) : ℚ) :=
    Int.cast_le.mpr h1
  linarith

theorem round2_zero : round2 0 = 0 := by
  simp [round2]

theorem round2_hundred : round2 100 = 100 := by
  have h : ((100 : ℚ) * 100) = ((10000 : ℤ) : ℚ) := by norm_num
  rw [round2, h, round_intCast]
  norm_num

theorem matchPenalty_nonneg (m : Match) : 0 ≤ matchPenalty m := by
  unfold matchPenalty
  split_ifs <;> norm_num

theorem penalty_sum_nonneg (ms : List Match) : 0 ≤ (ms.map matchPenalty).sum :=
  List.sum_nonneg (by
    intro a ha
    rcases List.mem_map.mp ha with ⟨m, _, rfl⟩
    exact matchPenalty_nonneg m)

theorem round2_clamp_bounds (b pen : ℚ) (hpen : 0 ≤ pen) :
    0 ≤ round2 (max 0 (max 0 (min 100 b) - pen)) ∧
      round2 (max 0 (max 0 (min 100 b) - pen)) ≤ 100 := by
  set v : ℚ := max 0 (max 0 (min 100 b) - pen) with hv
  have hv0 : 0 ≤ v := le_max_left _ _
  have hv100 : v ≤ 100 := by
    have h1 : max 0 (min 100 b) ≤ 100 :=
      max_le (by norm_num) (min_le_left _ _)
    exact max_le (by norm_num) (by linarith)
  refine ⟨?_, ?_⟩
  · calc (0 : ℚ) = round2 0 := round2_zero.symm
      _ ≤ round2 v := round2_mono hv0
  · calc round2 v ≤ round2 100 := round2_mono hv100
      _ = 100 := round2_hundred

theorem originality_bounds (text : List Char) (ms : List Match) :
    0 ≤ calculate_originality_score text ms ∧
      calculate_originality_score text ms ≤ 100 := by
  unfold calculate_originality_score
  split_ifs with h1
  · norm_num
  · by_cases h2 : (wordsBy wsB text).length = 0
    · simp only [h2, if_pos rfl]
      norm_num
    · rw [if_neg h2]
      exact round2_clamp_bounds _ _ (penalty_sum_nonneg ms)

/-! ## Helper lemmas: n-gram detection -/

theorem ngramPair_similarity_bounds {chunks : List (List Char)} {n : ℕ}
    {threshold : ℚ} {i j : ℕ} {m : Match}
    (h : ngramPair chunks n threshold i j = some m) :
    0 ≤ m.similarity ∧ m.similarity ≤ 1 := by
  simp only [ngramPair] at h
  split_ifs at h
  all_goals obtain rfl := Option.some.inj h
  all_goals dsimp only
  all_goals try exact ⟨le_refl 0, by norm_num⟩
  rename_i hu hthr
  constructor
  · positivity
  · rw [div_le_one (by exact_mod_cast hu)]
    exact_mod_cast Finset.card_le_card
      ((Finset.inter_subset_left).trans Finset.subset_union_left)

theorem mem_ngram_detection {chunks : List (List Char)} {n : ℕ}
    {threshold : ℚ} {m : Match} (h : m ∈ ngram_detection chunks n threshold) :
    ∃ i j, ngramPair chunks n threshold i j = some m := by
  unfold ngram_detection at h
  rcases List.mem_flatMap.mp h with ⟨i, _, hi⟩
  rcases List.mem_filterMap.mp hi with ⟨j, _, hj⟩
  exact ⟨i, j, hj⟩

/-! ## C1 -/

/-- C1: for every input text and every list of matches the originality score
returned by `_calculate_originality_score` lies in `[0, 100]`, and every
match emitted by the n-gram overlap detector `_ngram_detection` has a
similarity in `[0, 1]`. -/
theorem C1_score_and_similarity_bounds :
    (∀ (text : List Char) (ms : List Match),
        0 ≤ calculate_originality_score text ms ∧
          calculate_originality_score text ms ≤ 100) ∧
    (∀ (chunks : List (List Char)) (n : ℕ) (threshold : ℚ) (m : Match),
        m ∈ ngram_detection chunks n threshold →
          0 ≤ m.similarity ∧ m.similarity ≤ 1) := by
  refine ⟨originality_bounds, ?_⟩
  intro chunks n threshold m hm
  rcases mem_ngram_detection hm with ⟨i, j, hij⟩
  exact ngramPair_similarity_bounds hij

/-- A six-word chunk used by concrete witnesses. -/
def demoChunk : List Char :=
  "one two three four five six".toList

/-- The match `_ngram_detection` emits for two copies of `demoChunk`. -/
def demoNgramMatch : Match :=
  ⟨demoChunk, "Internal chunk 1", 1, 0, 27, "near_duplicate", none, none, []⟩

/-- Witness for C1: the bounds applied at a concrete text and at the
concrete match produced for a duplicated chunk. -/
theorem C1_score_and_similarity_bounds_witness :
    (demoNgramMatch ∈ ngram_detection [demoChunk, demoChunk] 5 ((3 : ℚ)/5)) ∧
      0 ≤ demoNgramMatch.similarity ∧ demoNgramMatch.similarity ≤ 1 :=
  ⟨by with_unfolding_all decide,
   C1_score_and_similarity_bounds.2 [demoChunk, demoChunk] 5 ((3 : ℚ)/5)
     demoNgramMatch (by with_unfolding_all decide)⟩

/-! ## C4 -/

/-- C4: adding matches can only lower the originality score — if `M1` is a
sublist of `M2` (so `M2` is a superset reporting at least the matches of
`M1`, similarities unchanged), the score for `M2` is at most the score for
`M1`. -/
theorem C4_originality_monotone (text : List Char) (M1 M2 : List Match)
    (h : M1.Sublist M2) :
    calculate_originality_score text M2 ≤ calculate_originality_score text M1 := by
  unfold calculate_originality_score
  split_ifs with h1
  · exact le_refl 0
  · by_cases h2 : (wordsBy wsB text).length = 0
    · simp [h2]
    · rw [if_neg h2, if_neg h2]
      have hT : (0 : ℚ) < ((wordsBy wsB text).length : ℚ) := by
        exact_mod_cast Nat.pos_of_ne_zero h2
      have hmw : ((M1.map (fun m => (wordsBy wsB m.text).length)).sum : ℚ) ≤
          ((M2.map (fun m => (wordsBy wsB m.text).length)).sum : ℚ) := by
        exact_mod_cast List.Sublist.sum_le_sum
          (List.Sublist.map (fun m => (wordsBy wsB m.text).length) h)
          (fun a _ => Nat.zero_le a)
      have hpen : (M1.map matchPenalty).sum ≤ (M2.map matchPenalty).sum :=
        List.Sublist.sum_le_sum (List.Sublist.map matchPenalty h)
          (fun a ha => by
            rcases List.mem_map.mp ha with ⟨m, _, rfl⟩
            exact matchPenalty_nonneg m)
      apply round2_mono
      have hbase : max 0 (min 100
            (100 - ((M2.map (fun m => (wordsBy wsB m.text).length)).sum : ℚ) /
              ((wordsBy wsB text).length : ℚ) * 100)) ≤
          max 0 (min 100
            (100 - ((M1.map (fun m => (wordsBy wsB m.text).length)).sum : ℚ) /
              ((wordsBy wsB text).length : ℚ) * 100)) := by
        gcongr
      have : max 0 (min 100
            (100 - ((M2.map (fun m => (wordsBy wsB m.text).length)).sum : ℚ) /
              ((wordsBy wsB text).length : ℚ) * 100)) -
            (M2.map matchPenalty).sum ≤
          max 0 (min 100
            (100 - ((M1.map (fun m => (wordsBy wsB m.text).length)).sum : ℚ) /
              ((wordsBy wsB text).length : ℚ) * 100)) -
            (M1.map matchPenalty).sum := by linarith
      exact max_le_max (le_refl 0) this

/-- Witness for C4 at a concrete text and the concrete match pair
`[] ⊆ [demoNgramMatch]`. -/
theorem C4_originality_monotone_witness :
    (([] : List Match).Sublist [demoNgramMatch]) ∧
      calculate_originality_score demoChunk [demoNgramMatch] ≤
        calculate_originality_score demoChunk [] :=
  ⟨List.nil_sublist _,
   C4_originality_monotone demoChunk [] [demoNgramMatch] (List.nil_sublist _)⟩

/-! ## C2 -/

theorem semantic_detection_nil {Vec : Type} (o : SemanticOracle Vec)
    (cfg co : Bool) (thr : ℚ) : semantic_detection o cfg [] co thr = [] := by
  simp only [semantic_detection, List.take_nil, List.map_nil]
  split_ifs
  · rfl
  · cases hr : o.embed_documents [] <;> simp [hr]

theorem check_plagiarism_no_chunks {Vec : Type} (o : SemanticOracle Vec)
    (cfg : Bool) (text : List Char) (lang : String) (co : Bool)
    (h : chunk_text text 100 = []) :
    (check_plagiarism o cfg text lang co).originality_score =
        calculate_originality_score text [] ∧
      (check_plagiarism o cfg text lang co).total_matches = 0 := by
  simp only [check_plagiarism]
  rw [h]
  simp [fingerprint_detection, ngram_detection, deduplicate_matches, dedupGo,
    semantic_detection_nil]

/-- The trivial external oracle used in witnesses. -/
def trivialOracle : SemanticOracle Unit :=
  ⟨fun _ => .ok [], fun _ => .ok [], fun _ => .ok [], fun _ _ => 0⟩

/-- C2: the plagiarism check on empty or whitespace-only text yields
originality score 0.0 and zero matches; more generally
`_calculate_originality_score` returns 0.0 whenever the text is empty or has
zero words, for any match list. -/
theorem C2_empty_input_zero :
    (∀ (Vec : Type) (o : SemanticOracle Vec) (cfg : Bool) (lang : String)
        (co : Bool),
       (check_plagiarism o cfg [] lang co).originality_score = 0 ∧
         (check_plagiarism o cfg [] lang co).total_matches = 0) ∧
    (∀ (Vec : Type) (o : SemanticOracle Vec) (cfg : Bool) (lang : String)
        (co : Bool),
       (check_plagiarism o cfg "   ".toList lang co).originality_score = 0 ∧
         (check_plagiarism o cfg "   ".toList lang co).total_matches = 0) ∧
    (∀ (text : List Char) (ms : List Match),
       text.isEmpty = true ∨ (wordsBy wsB text).length = 0 →
         calculate_originality_score text ms = 0) := by
  have hzero : ∀ (text : List Char) (ms : List Match),
      text.isEmpty = true ∨ (wordsBy wsB text).length = 0 →
      calculate_originality_score text ms = 0 := by
    intro text ms h
    rcases h with h | h <;> simp [calculate_originality_score, h]
  refine ⟨?_, ?_, hzero⟩
  · intro Vec o cfg lang co
    have h := check_plagiarism_no_chunks o cfg [] lang co (by decide)
    refine ⟨?_, h.2⟩
    rw [h.1]
    exact hzero [] [] (Or.inl rfl)
  · intro Vec o cfg lang co
    have h := check_plagiarism_no_chunks o cfg ("   ".toList) lang co (by decide)
    refine ⟨?_, h.2⟩
    rw [h.1]
    exact hzero ("   ".toList) [] (Or.inr (by decide))

/-- Witness for C2: the zero-word law applied at the whitespace-only text
`" "` and a nonempty match list, plus the pipeline laws at the trivial
oracle. -/
theorem C2_empty_input_zero_witness :
    ((' ' :: []).isEmpty = true ∨ (wordsBy wsB [' ']).length = 0) ∧
      calculate_originality_score [' '] [demoNgramMatch] = 0 ∧
      (check_plagiarism trivialOracle true "   ".toList "en" true).originality_score = 0 :=
  ⟨Or.inr (by decide),
   C2_empty_input_zero.2.2 [' '] [demoNgramMatch] (Or.inr (by decide)),
   (C2_empty_input_zero.2.1 Unit trivialOracle true "en" true).1⟩

/-! ## C6 -/

theorem dedupGo_sublist (seen : List (List Char × String)) (l : List Match) :
    (dedupGo seen l).Sublist l := by
  induction l generalizing seen with
  | nil => exact List.Sublist.refl []
  | cons m rest ih =>
    unfold dedupGo
    split_ifs
    · exact (ih seen).trans (List.sublist_cons_self m rest)
    · exact (ih (matchKey m :: seen)).cons₂ m

theorem mem_dedupGo_key_not_seen {seen : List (List Char × String)}
    {l : List Match} {m : Match} (h : m ∈ dedupGo seen l) :
    matchKey m ∉ seen := by
  induction l generalizing seen with
  | nil => cases h
  | cons x rest ih =>
    unfold dedupGo at h
    split_ifs at h with hx
    · exact ih h
    · rcases List.mem_cons.mp h with rfl | h
      · exact hx
      · exact fun hmem => (ih h) (List.mem_cons_of_mem _ hmem)

theorem dedupGo_pairwise (seen : List (List Char × String)) (l : List Match) :
    (dedupGo seen l).Pairwise (fun a b => matchKey a ≠ matchKey b) := by
  induction l generalizing seen with
  | nil => exact List.Pairwise.nil
  | cons m rest ih =>
    unfold dedupGo
    split_ifs with hm
    · exact ih seen
    · refine List.Pairwise.cons ?_ (ih (matchKey m :: seen))
      intro b hb hkey
      exact (mem_dedupGo_key_not_seen hb) (by rw [← hkey]; exact List.mem_cons_self _ _)

theorem dedupGo_find? (seen : List (List Char × String)) (l : List Match)
    (k : List Char × String) (hk : k ∉ seen) :
    (dedupGo seen l).find? (fun x => matchKey x == k) =
      l.find? (fun x => matchKey x == k) := by
  induction l generalizing seen with
  | nil => rfl
  | cons m rest ih =>
    unfold dedupGo
    by_cases hm : matchKey m ∈ seen
    · rw [if_pos hm]
      have hne : (matchKey m == k) = false := by
        simp only [beq_eq_false_iff_ne]
        intro he
        exact hk (he ▸ hm)
      rw [List.find?_cons, hne, ih seen hk]
    · rw [if_neg hm]
      by_cases hmk : matchKey m = k
      · rw [List.find?_cons, List.find?_cons]
        have : (matchKey m == k) = true := beq_iff_eq.mpr hmk
        rw [this]
      · have hne : (matchKey m == k) = false := beq_eq_false_iff_ne.mpr hmk
        rw [List.find?_cons, List.find?_cons, hne,
          ih (matchKey m :: seen) (by
            intro hmem
            rcases List.mem_cons.mp hmem with h | h
            · exact hmk h.symm
            · exact hk h)]

theorem dedupGo_cons (seen : List (List Char × String)) (x : Match)
    (xs : List Match) :
    dedupGo seen (x :: xs) =
      if matchKey x ∈ seen then dedupGo seen xs
      else x :: dedupGo (matchKey x :: seen) xs :=
  rfl

theorem dedupGo_idem (seen : List (List Char × String)) (l : List Match) :
    dedupGo seen (dedupGo seen l) = dedupGo seen l := by
  induction l generalizing seen with
  | nil => rfl
  | cons m rest ih =>
    rw [dedupGo_cons seen m rest]
    split_ifs with hm
    · exact ih seen
    · rw [dedupGo_cons seen m (dedupGo (matchKey m :: seen) rest), if_neg hm,
        ih (matchKey m :: seen)]

/-- C6: `_deduplicate_matches` keeps, per key `(first 50 chars of text,
source)`, only the first match in input order — the output is a sublist of
the input (insertion order preserved), its keys are pairwise distinct, for
every key the first retained match is the first input match with that key,
and the function is idempotent. -/
theorem C6_dedup_first_wins_idempotent (ms : List Match) :
    (deduplicate_matches ms).Sublist ms ∧
      (deduplicate_matches ms).Pairwise (fun a b => matchKey a ≠ matchKey b) ∧
      (∀ k : List Char × String,
        (deduplicate_matches ms).find? (fun x => matchKey x == k) =
          ms.find? (fun x => matchKey x == k)) ∧
      deduplicate_matches (deduplicate_matches ms) = deduplicate_matches ms :=
  ⟨dedupGo_sublist [] ms, dedupGo_pairwise [] ms,
   fun k => dedupGo_find? [] ms k (List.not_mem_nil k),
   dedupGo_idem [] ms⟩

/-! ## C10 -/

theorem ngramPair_mtype {chunks : List (List Char)} {n : ℕ} {threshold : ℚ}
    {i j : ℕ} {m : Match} (h : ngramPair chunks n threshold i j = some m) :
    m.mtype = "near_duplicate" := by
  simp only [ngramPair] at h
  split_ifs at h
  all_goals obtain rfl := Option.some.inj h
  all_goals rfl

theorem processChunk_mtype {Vec : Type} {o : SemanticOracle Vec} {thr : ℚ}
    {embs : List Vec} {i : ℕ} {c : List Char} {m : Match}
    (h : m ∈ processChunk o thr embs i c) :
    m.mtype = "paraphrase" ∨ m.mtype = "high_similarity" := by
  simp only [processChunk] at h
  rcases hs : o.search_papers (c.take 500) with e | papers <;>
    simp only [hs] at h
  · cases h
  · split_ifs at h with h1 h2
    · cases h
    · cases h
    · rcases hq : o.embed_queries
          ((papers.filterMap (fun p =>
            if (pyStrip (paperText p).toList).isEmpty = true then none
            else some ((paperText p).toList.take 2000, p))).map
              (fun v => String.mk v.1)) with e | paperEmbs <;>
        simp only [hq] at h
      · cases h
      · rcases hg : embs.get? i with _ | ce <;> simp only [hg] at h
        · cases h
        · rcases List.mem_filterMap.mp h with ⟨pair, _, hpair⟩
          split_ifs at hpair with hthr hsim
          all_goals obtain rfl := Option.some.inj hpair
          · exact Or.inl rfl
          · exact Or.inr rfl

theorem mem_semantic_detection_mtype {Vec : Type} {o : SemanticOracle Vec}
    {cfg : Bool} {chunks : List (List Char)} {co : Bool} {thr : ℚ} {m : Match}
    (h : m ∈ semantic_detection o cfg chunks co thr) :
    m.mtype = "paraphrase" ∨ m.mtype = "high_similarity" := by
  simp only [semantic_detection] at h
  split_ifs at h with h1
  · cases h
  · rcases he : o.embed_documents ((chunks.take 10).map (fun c => c.take 2000))
      with e | embs <;> rw [he] at h
    · cases h
    · rcases List.mem_flatMap.mp h with ⟨ic, _, hic⟩
      exact processChunk_mtype hic

/-- C10: the fingerprint layer returns no matches for any chunk list, and
consequently the pipeline never emits a match of type `exact`. -/
theorem C10_fingerprint_empty_no_exact :
    (∀ chunks : List (List Char), fingerprint_detection chunks = []) ∧
    (∀ (Vec : Type) (o : SemanticOracle Vec) (cfg : Bool) (text : List Char)
        (lang : String) (co : Bool) (m : Match),
      m ∈ (check_plagiarism o cfg text lang co).matches_list →
        m.mtype ≠ "exact") := by
  refine ⟨fun _ => rfl, ?_⟩
  intro Vec o cfg text lang co m hm
  simp only [check_plagiarism, fingerprint_detection, List.nil_append] at hm
  have hall := (dedupGo_sublist [] _).subset hm
  rcases List.mem_append.mp hall with hng | hsem
  · rcases mem_ngram_detection hng with ⟨i, j, hij⟩
    rw [ngramPair_mtype hij]
    decide
  · split_ifs at hsem with hcfg
    · rcases mem_semantic_detection_mtype hsem with h | h <;> rw [h] <;> decide
    · cases hsem

/-- The text used by the C10 witness: two identical six-word paragraphs. -/
def demoText : List Char :=
  "one two three four five six\n\none two three four five six".toList

/-- Witness for C10: the concrete near-duplicate match produced for
`demoText` is in the pipeline output and is not of type `exact`. -/
theorem C10_fingerprint_empty_no_exact_witness :
    (demoNgramMatch ∈
        (check_plagiarism trivialOracle false demoText "en" false).matches_list) ∧
      demoNgramMatch.mtype ≠ "exact" :=
  ⟨by with_unfolding_all decide,
   C10_fingerprint_empty_no_exact.2 Unit trivialOracle false demoText "en" false
     demoNgramMatch (by with_unfolding_all decide)⟩

/-! ## C5 -/

/-- C5: the semantic layer is a no-op (empty result, no exception) when
`check_online` is false or no Cohere client is configured; a failing batch
embedding is caught by the outer `except` and yields `[]`; otherwise the
layer is the concatenation of independent per-chunk results, and a chunk
whose external search or paper-embedding call fails contributes `[]` while
the remaining chunks are still processed.  (The embedding is total: every
Python exception path is an explicit caught branch, so no error value ever
reaches the caller.) -/
theorem C5_semantic_layer_degrades_gracefully :
    (∀ (Vec : Type) (o : SemanticOracle Vec) (cfg : Bool)
        (chunks : List (List Char)) (co : Bool) (thr : ℚ),
      co = false ∨ cfg = false → semantic_detection o cfg chunks co thr = []) ∧
    (∀ (Vec : Type) (o : SemanticOracle Vec) (chunks : List (List Char))
        (thr : ℚ) (e : String),
      o.embed_documents ((chunks.take 10).map (fun c => c.take 2000)) =
          .error e →
        semantic_detection o true chunks true thr = []) ∧
    (∀ (Vec : Type) (o : SemanticOracle Vec) (chunks : List (List Char))
        (thr : ℚ) (embs : List Vec),
      o.embed_documents ((chunks.take 10).map (fun c => c.take 2000)) =
          .ok embs →
        semantic_detection o true chunks true thr =
          (chunks.take 10).enum.flatMap
            (fun ic => processChunk o thr embs ic.1 ic.2)) ∧
    (∀ (Vec : Type) (o : SemanticOracle Vec) (thr : ℚ) (embs : List Vec)
        (i : ℕ) (c : List Char) (e : String),
      o.search_papers (c.take 500) = .error e →
        processChunk o thr embs i c = []) := by
  refine ⟨?_, ?_, ?_, ?_⟩
  · intro Vec o cfg chunks co thr h
    rcases h with rfl | rfl <;> simp [semantic_detection]
  · intro Vec o chunks thr e he
    simp only [semantic_detection, Bool.not_true, Bool.or_self,
      Bool.false_eq_true, if_false, he]
  · intro Vec o chunks thr embs he
    simp only [semantic_detection, Bool.not_true, Bool.or_self,
      Bool.false_eq_true, if_false, he]
  · intro Vec o thr embs i c e hs
    simp only [processChunk, hs]

/-- The always-failing external oracle used in witnesses. -/
def failingOracle : SemanticOracle Unit :=
  ⟨fun _ => .error "boom", fun _ => .error "boom", fun _ => .error "boom",
   fun _ _ => 0⟩

/-- Witness for C5: the layer at concrete inputs — disabled online check
gives `[]`, and a chunk whose search call fails contributes `[]`. -/
theorem C5_semantic_layer_degrades_gracefully_witness :
    semantic_detection trivialOracle true [demoChunk] false ((3 : ℚ)/4) = [] ∧
      failingOracle.search_papers (demoChunk.take 500) = .error "boom" ∧
      processChunk failingOracle ((3 : ℚ)/4) [] 0 demoChunk = [] :=
  ⟨C5_semantic_layer_degrades_gracefully.1 Unit trivialOracle true [demoChunk]
     false ((3 : ℚ)/4) (Or.inl rfl),
   rfl,
   C5_semantic_layer_degrades_gracefully.2.2.2 Unit failingOracle ((3 : ℚ)/4)
     [] 0 demoChunk "boom" rfl⟩

/-! ## C9 -/

/-- A sentence qualifies as a claim: at least 5 words and an evidentiary
pattern match. -/
def qualifiesAsClaim (s : List Char) : Bool :=
  5 ≤ (wordsBy wsB s).length && matchesClaimPattern s

theorem identify_claims_filterMap_eq (sents : List (List Char)) :
    sents.filterMap (fun sentence =>
        let s := pyStrip sentence
        if (wordsBy wsB s).length < 5 then none
        else if matchesClaimPattern s then some s
        else none) =
      (sents.map pyStrip).filter qualifiesAsClaim := by
  induction sents with
  | nil => rfl
  | cons x rest ih =>
    simp only [List.filterMap_cons, List.map_cons, List.filter_cons]
    by_cases h5 : (wordsBy wsB (pyStrip x)).length < 5
    · have hq : qualifiesAsClaim (pyStrip x) = false := by
        simp [qualifiesAsClaim, Nat.not_le.mpr h5]
      simp only [if_pos h5, hq, Bool.false_eq_true, if_false, ih]
    · by_cases hp : matchesClaimPattern (pyStrip x)
      · have hq : qualifiesAsClaim (pyStrip x) = true := by
          simp [qualifiesAsClaim, Nat.le_of_not_lt h5, hp]
        simp only [if_neg h5, if_pos hp, hq, if_true, ih]
      · have hq : qualifiesAsClaim (pyStrip x) = false := by
          simp [qualifiesAsClaim, hp]
        simp only [if_neg h5, if_neg hp, hq, Bool.false_eq_true, if_false, ih]

/-- The claim-extraction scenario input. -/
def demoClaimText : List Char :=
  "Research shows that AI is effective. This is simple text. Studies have demonstrated improved outcomes.".toList

/-- C9: `_identify_claims` returns, in document order, the first (at most)
10 stripped sentences with at least 5 words matching an evidentiary
pattern; on the scenario input it returns exactly the two expected claims,
in order. -/
theorem C9_claim_extraction :
    (∀ text : List Char,
      identify_claims text =
        (((reSplit punctB text).map pyStrip).filter qualifiesAsClaim).take 10) ∧
      identify_claims demoClaimText =
        ["Research shows that AI is effective".toList,
         "Studies have demonstrated improved outcomes".toList] := by
  constructor
  · intro text
    unfold identify_claims
    rw [identify_claims_filterMap_eq]
  · decide

/-! ## C8 -/

/-- Semantic scores for all five sample journals (stand-in for the external
embedding model's output). -/
def demoSemanticScores : List (String × ℚ) :=
  [("nature", (1 : ℚ)/2), ("plos-one", (1 : ℚ)/2), ("ieee-access", (1 : ℚ)/2),
   ("scientific-reports", (1 : ℚ)/2), ("arxiv", (1 : ℚ)/2)]

/-- A ten-word abstract passing the length validation. -/
def demoAbstract : List Char :=
  "a b c d e f g h i j".toList

/-- C8 (code bug evidence): on the shipped sample database,
`recommend_journals` with default preferences raises `TypeError` — the
arXiv record stores `impact_factor = None` with the key present, so
`journal.get('impact_factor', 0)` returns `None` and `None / 10.0` raises
inside `_calculate_composite_score` instead of the missing signal being
treated as 0.0.  The second conjunct verifies the part of the claim the
code honours: with no paper keywords the caller assigns every journal id
in the semantic-score dict the neutral keyword prior 0.5 before scoring. -/
theorem C8_composite_scoring_raises_on_arxiv :
    recommend_journals demoSemanticScores demoAbstract [] emptyPreferences
        journal_database = .error "TypeError: NoneType / float" ∧
      (∀ (ss : List (String × ℚ)) (db : List Journal),
        calculate_keyword_overlap [] ss db =
          ss.map (fun kv => (kv.1, (1 : ℚ)/2))) := by
  constructor
  · with_unfolding_all rfl
  · intro ss db
    rfl

/-! ## C7 -/

theorem mem_most_common {n : ℕ} {l : List String} {t : String} {cnt : ℕ}
    (h : (t, cnt) ∈ most_common n l) : cnt = l.count t := by
  unfold most_common at h
  have h2 := List.mem_of_mem_take h
  rcases List.mem_map.mp h2 with ⟨u, _, huv⟩
  obtain ⟨rfl, rfl⟩ := Prod.mk.injEq .. ▸ huv
  rfl

theorem topic_paper_count_pos_ne_nil {papers : List TrendPaper} {t : String}
    (h : 0 < topic_paper_count papers t) : papers ≠ [] := by
  intro hnil
  rw [hnil] at h
  exact absurd h (by simp [topic_paper_count])

theorem recent_le_total (cy : ℤ) (papers : List TrendPaper) (t : String) :
    topic_recent_citations cy papers t ≤ topic_total_citations papers t := by
  unfold topic_recent_citations topic_total_citations
  apply List.sum_le_sum
  intro p _
  split_ifs
  · exact le_refl _
  · exact Nat.zero_le _

/-- C7: trend scoring excludes every topic backed by fewer than 3 papers,
and every emitted topic's score is
`0.3·min(count/total_papers·10, 1) + 0.4·min((citations/papers)/100, 1)
 + 0.3·(recent/total citations, 0 when no citations)`. -/
theorem C7_trend_scores (cy : ℤ) (topics : List String)
    (papers : List TrendPaper) :
    (∀ e ∈ calculate_trend_scores cy topics papers,
      3 ≤ e.paper_count ∧
      e.paper_count = topic_paper_count papers e.topic ∧
      e.score =
        (3 : ℚ)/10 * min ((topics.count e.topic : ℚ) / (papers.length : ℚ) * 10) 1 +
        (4 : ℚ)/10 * min (((topic_total_citations papers e.topic : ℚ) /
            (topic_paper_count papers e.topic : ℚ)) / 100) 1 +
        (3 : ℚ)/10 * (if topic_total_citations papers e.topic = 0 then 0
          else (topic_recent_citations cy papers e.topic : ℚ) /
            (topic_total_citations papers e.topic : ℚ))) ∧
    (∀ t : String, topic_paper_count papers t < 3 →
      t ∉ (calculate_trend_scores cy topics papers).map (fun e => e.topic)) := by
  have hmain : ∀ e ∈ calculate_trend_scores cy topics papers,
      3 ≤ e.paper_count ∧
      e.paper_count = topic_paper_count papers e.topic ∧
      e.score =
        (3 : ℚ)/10 * min ((topics.count e.topic : ℚ) / (papers.length : ℚ) * 10) 1 +
        (4 : ℚ)/10 * min (((topic_total_citations papers e.topic : ℚ) /
            (topic_paper_count papers e.topic : ℚ)) / 100) 1 +
        (3 : ℚ)/10 * (if topic_total_citations papers e.topic = 0 then 0
          else (topic_recent_citations cy papers e.topic : ℚ) /
            (topic_total_citations papers e.topic : ℚ)) := by
    intro e he
    simp only [calculate_trend_scores] at he
    rcases List.mem_filterMap.mp he with ⟨tc, htc, heq⟩
    by_cases hlt : topic_paper_count papers tc.1 < 3
    · rw [if_pos hlt] at heq
      exact absurd heq (by simp)
    rw [if_neg hlt] at heq
    obtain rfl := Option.some.inj heq
    have hcnt : tc.2 = topics.count tc.1 := mem_most_common (by
      cases tc
      exact htc)
    have hpc3 : 3 ≤ topic_paper_count papers tc.1 := Nat.le_of_not_lt hlt
    have hpc0 : topic_paper_count papers tc.1 ≠ 0 := by omega
    have hne : papers ≠ [] := @topic_paper_count_pos_ne_nil papers tc.1 (by omega)
    have hnem : papers.isEmpty = false := by
      simpa [List.isEmpty_iff] using hne
    refine ⟨hpc3, rfl, ?_⟩
    dsimp only
    rw [hcnt, hnem, if_neg hpc0]
    simp only [Bool.false_eq_true, if_false]
    have hrec : min (if topic_total_citations papers tc.1 = 0 then (0 : ℚ)
        else (topic_recent_citations cy papers tc.1 : ℚ) /
          (topic_total_citations papers tc.1 : ℚ)) 1 =
        (if topic_total_citations papers tc.1 = 0 then (0 : ℚ)
        else (topic_recent_citations cy papers tc.1 : ℚ) /
          (topic_total_citations papers tc.1 : ℚ)) := by
      split_ifs with h0
      · norm_num
      · apply min_eq_left
        rw [div_le_one (by exact_mod_cast Nat.pos_of_ne_zero h0)]
        exact_mod_cast recent_le_total cy papers tc.1
    rw [hrec]
    ring
  refine ⟨hmain, ?_⟩
  intro t hlt hmem
  rcases List.mem_map.mp hmem with ⟨e, he, htopic⟩
  have h := hmain e he
  rw [htopic] at h
  omega

/-- Concrete papers for the C7 witness. -/
def demoPaper1 : TrendPaper :=
  ⟨some ["AI"], none, none, some 50, none, some 2026, none, none⟩

def demoPaper2 : TrendPaper :=
  ⟨some ["AI"], none, none, some 60, none, some 2020, none, none⟩

def demoPaper3 : TrendPaper :=
  ⟨some ["AI", "ML"], none, none, some 40, none, some 2025, none, none⟩

/-- The scored topic `_calculate_trend_scores` produces for the demo
corpus. -/
def demoScoredAI : ScoredTopic :=
  ⟨"AI", (17 : ℚ)/25, 3, 150, 50, 3, [demoPaper2, demoPaper1, demoPaper3]⟩

set_option maxRecDepth 4000 in
/-- Witness for C7 at a concrete three-paper corpus. -/
theorem C7_trend_scores_witness :
    (demoScoredAI ∈ calculate_trend_scores 2026 ["AI", "AI", "AI", "ML"]
        [demoPaper1, demoPaper2, demoPaper3]) ∧
      3 ≤ demoScoredAI.paper_count :=
  ⟨by with_unfolding_all decide,
   ((C7_trend_scores 2026 ["AI", "AI", "AI", "ML"]
       [demoPaper1, demoPaper2, demoPaper3]).1 demoScoredAI
     (by with_unfolding_all decide)).1⟩

/-! ## C3: token-preservation lemmas for the text splitters -/

theorem wordsByAux_cons (p : Char → Bool) (cur : List Char) (c : Char)
    (rest : List Char) :
    wordsByAux p cur (c :: rest) =
      if p c then
        (if cur.isEmpty then wordsByAux p [] rest
         else cur.reverse :: wordsByAux p [] rest)
      else wordsByAux p (c :: cur) rest :=
  rfl

theorem wordsBy_cons_sep {p : Char → Bool} {c : Char} (hc : p c = true)
    (b : List Char) : wordsBy p (c :: b) = wordsBy p b := by
  unfold wordsBy
  rw [wordsByAux_cons, if_pos hc]
  rfl

theorem wordsByAux_append_sep {p : Char → Bool} {c : Char} (hc : p c = true)
    (b : List Char) :
    ∀ (a : List Char) (cur : List Char),
      wordsByAux p cur (a ++ c :: b) = wordsByAux p cur a ++ wordsBy p b := by
  intro a
  induction a with
  | nil =>
    intro cur
    rw [List.nil_append, wordsByAux_cons, if_pos hc]
    by_cases hcur : cur.isEmpty
    · rw [if_pos hcur, wordsByAux]
      rw [if_pos hcur, List.nil_append]
      rfl
    · rw [if_neg hcur, wordsByAux]
      rw [if_neg hcur, List.cons_append, List.nil_append]
      rfl
  | cons d a ih =>
    intro cur
    rw [List.cons_append, wordsByAux_cons, wordsByAux_cons]
    by_cases hd : p d
    · rw [if_pos hd, if_pos hd]
      by_cases hcur : cur.isEmpty
      · rw [if_pos hcur, if_pos hcur, ih]
      · rw [if_neg hcur, if_neg hcur, ih, List.cons_append]
    · rw [if_neg hd, if_neg hd, ih]

theorem wordsBy_append_sep {p : Char → Bool} {c : Char} (hc : p c = true)
    (a b : List Char) :
    wordsBy p (a ++ c :: b) = wordsBy p a ++ wordsBy p b :=
  wordsByAux_append_sep hc b a []

theorem wordsBy_append_sep_nil {p : Char → Bool} {c : Char} (hc : p c = true)
    (a : List Char) : wordsBy p (a ++ [c]) = wordsBy p a := by
  rw [wordsBy_append_sep hc a []]
  simp [wordsBy, wordsByAux]

theorem wordsByAux_eq_nil_iff (p : Char → Bool) (cur : List Char)
    (s : List Char) :
    wordsByAux p cur s = [] ↔ cur = [] ∧ s.all p = true := by
  induction s generalizing cur with
  | nil =>
    rw [wordsByAux]
    by_cases hcur : cur.isEmpty
    · simp [List.isEmpty_iff.mp hcur]
    · simp [hcur, List.isEmpty_iff]
      intro h
      exact absurd (List.isEmpty_iff.mpr h) hcur
  | cons c rest ih =>
    rw [wordsByAux_cons]
    by_cases hc : p c
    · rw [if_pos hc]
      by_cases hcur : cur.isEmpty
      · rw [if_pos hcur, ih]
        simp [List.isEmpty_iff.mp hcur, hc]
      · rw [if_neg hcur]
        have hne : cur ≠ [] := fun h => hcur (List.isEmpty_iff.mpr h)
        simp [hne]
    · rw [if_neg hc, ih]
      simp [hc]

theorem wordsBy_eq_nil_iff (p : Char → Bool) (s : List Char) :
    wordsBy p s = [] ↔ s.all p = true := by
  rw [wordsBy, wordsByAux_eq_nil_iff]
  simp

/-- Tokens under a separator class `q` are unchanged by dropping a leading
run of whitespace, when whitespace is contained in `q`. -/
theorem wordsBy_dropWhile_front {q : Char → Bool}
    (hq : ∀ c, wsB c = true → q c = true) (s : List Char) :
    wordsBy q (s.dropWhile wsB) = wordsBy q s := by
  induction s with
  | nil => rfl
  | cons c rest ih =>
    by_cases hc : wsB c
    · rw [List.dropWhile_cons_of_pos hc, ih, wordsBy_cons_sep (hq c hc)]
    · rw [List.dropWhile_cons_of_neg (by simpa using hc)]

theorem wordsBy_dropWhile_back {q : Char → Bool}
    (hq : ∀ c, wsB c = true → q c = true) (r : List Char) :
    wordsBy q ((r.dropWhile wsB).reverse) = wordsBy q r.reverse := by
  induction r with
  | nil => rfl
  | cons c rest ih =>
    by_cases hc : wsB c
    · rw [List.dropWhile_cons_of_pos hc, ih, List.reverse_cons,
        wordsBy_append_sep_nil (hq c hc)]
    · rw [List.dropWhile_cons_of_neg (by simpa using hc)]

theorem wordsBy_pyStrip {q : Char → Bool}
    (hq : ∀ c, wsB c = true → q c = true) (s : List Char) :
    wordsBy q (pyStrip s) = wordsBy q s := by
  unfold pyStrip
  rw [wordsBy_dropWhile_back hq (s.dropWhile wsB).reverse,
    List.reverse_reverse, wordsBy_dropWhile_front hq]

theorem all_ws_pyStrip_nil {s : List Char} (h : s.all wsB = true) :
    pyStrip s = [] := by
  unfold pyStrip
  have : s.dropWhile wsB = [] := by
    rw [List.dropWhile_eq_nil_iff]
    intro x hx
    exact List.all_eq_true.mp h x hx
  rw [this]
  rfl

/-- Tokens of a space-join are the concatenation of the tokens, when space
is a separator. -/
theorem wordsBy_joinSpace {q : Char → Bool} (hq : q ' ' = true) :
    ∀ l : List (List Char),
      wordsBy q (joinSpace l) = l.flatMap (wordsBy q) := by
  intro l
  induction l with
  | nil => rfl
  | cons a tail ih =>
    cases tail with
    | nil => simp [joinSpace]
    | cons b rest =>
      rw [joinSpace, wordsBy_append_sep hq, ih]
      rfl

/-- Step equations for `reSplitAux` at literal `inRun` flags. -/
theorem reSplitAux_cons_skip (p : Char → Bool) (cur : List Char) (c : Char)
    (rest : List Char) :
    reSplitAux p true cur (c :: rest) =
      if p c = true then reSplitAux p true cur rest
      else reSplitAux p false [c] rest :=
  rfl

theorem reSplitAux_cons_scan (p : Char → Bool) (cur : List Char) (c : Char)
    (rest : List Char) :
    reSplitAux p false cur (c :: rest) =
      if p c = true then cur.reverse :: reSplitAux p true [] rest
      else reSplitAux p false (c :: cur) rest :=
  rfl

/-- Splitting on runs of a sub-class `p` of the separator class `q` and
re-tokenising each piece recovers the tokens of the whole string. -/
theorem reSplitAux_flatMap {p q : Char → Bool}
    (hpq : ∀ c, p c = true → q c = true) :
    ∀ l : List Char,
      (∀ cur, (reSplitAux p false cur l).flatMap (wordsBy q) =
        wordsBy q (cur.reverse ++ l)) ∧
      ((reSplitAux p true [] l).flatMap (wordsBy q) = wordsBy q l) := by
  intro l
  induction l with
  | nil =>
    constructor
    · intro cur
      simp [reSplitAux]
    · rfl
  | cons c rest ih =>
    constructor
    · intro cur
      rw [reSplitAux_cons_scan]
      by_cases hc : p c
      · rw [if_pos hc]
        simp only [List.flatMap_cons]
        rw [ih.2, wordsBy_append_sep (hpq c hc)]
      · rw [if_neg (by simpa using hc), ih.1 (c :: cur), List.reverse_cons,
          List.append_assoc, List.cons_append, List.nil_append]
    · rw [reSplitAux_cons_skip]
      by_cases hc : p c
      · rw [if_pos hc, ih.2, wordsBy_cons_sep (hpq c hc)]
      · rw [if_neg (by simpa using hc), ih.1 [c]]
        rfl

theorem reSplit_flatMap {p q : Char → Bool}
    (hpq : ∀ c, p c = true → q c = true) (s : List Char) :
    (reSplit p s).flatMap (wordsBy q) = wordsBy q s :=
  (reSplitAux_flatMap hpq s).1 []

/-- Step equations for `splitNNAux` at literal `pending` flags. -/
theorem splitNNAux_cons_pending (cur : List Char) (c : Char)
    (rest : List Char) :
    splitNNAux true cur (c :: rest) =
      if (c == '\n') = true then cur.reverse :: splitNNAux false [] rest
      else splitNNAux false (c :: '\n' :: cur) rest :=
  rfl

theorem splitNNAux_cons_plain (cur : List Char) (c : Char)
    (rest : List Char) :
    splitNNAux false cur (c :: rest) =
      if (c == '\n') = true then splitNNAux true cur rest
      else splitNNAux false (c :: cur) rest :=
  rfl

/-- Splitting on the two-character separator `"\n\n"` and re-tokenising each
piece recovers the tokens of the whole string, when `'\n'` is a
separator. -/
theorem splitNNAux_flatMap {q : Char → Bool} (hq : q '\n' = true) :
    ∀ l : List Char,
      (∀ cur, (splitNNAux false cur l).flatMap (wordsBy q) =
        wordsBy q (cur.reverse ++ l)) ∧
      (∀ cur, (splitNNAux true cur l).flatMap (wordsBy q) =
        wordsBy q (cur.reverse ++ '\n' :: l)) := by
  intro l
  induction l with
  | nil =>
    constructor
    · intro cur
      simp [splitNNAux]
    · intro cur
      simp [splitNNAux, List.reverse_cons]
  | cons c rest ih =>
    constructor
    · intro cur
      rw [splitNNAux_cons_plain]
      by_cases hc : c = '\n'
      · subst hc
        rw [if_pos (by simp), ih.2 cur]
      · rw [if_neg (by simp [hc]), ih.1 (c :: cur), List.reverse_cons,
          List.append_assoc, List.cons_append, List.nil_append]
    · intro cur
      rw [splitNNAux_cons_pending]
      by_cases hc : c = '\n'
      · subst hc
        rw [if_pos (by simp)]
        simp only [List.flatMap_cons]
        rw [ih.1 [], List.reverse_nil, List.nil_append,
          wordsBy_append_sep hq, wordsBy_cons_sep hq]
      · rw [if_neg (by simp [hc]), ih.1 (c :: '\n' :: cur)]
        simp only [List.reverse_cons, List.append_assoc, List.cons_append,
          List.nil_append]

theorem splitNN_flatMap {q : Char → Bool} (hq : q '\n' = true) (s : List Char) :
    (splitNN s).flatMap (wordsBy q) = wordsBy q s :=
  (splitNNAux_flatMap hq s).1 []

/-- Step equation for `chunkLoop`. -/
theorem chunkLoop_cons (minSize : ℕ) (cur : List (List Char)) (curLen : ℕ)
    (sent : List Char) (rest : List (List Char)) :
    chunkLoop minSize cur curLen (sent :: rest) =
      if (pyStrip sent).isEmpty then chunkLoop minSize cur curLen rest
      else if minSize ≤ curLen + (wordsBy wsB (pyStrip sent)).length then
        (if cur.isEmpty then [] else [joinSpace cur]) ++
          chunkLoop minSize [pyStrip sent] (wordsBy wsB (pyStrip sent)).length rest
      else chunkLoop minSize (cur ++ [pyStrip sent])
        (curLen + (wordsBy wsB (pyStrip sent)).length) rest :=
  rfl

/-- The greedy regrouping loop preserves the token stream: the tokens of the
emitted chunks are the pending buffer's tokens followed by the sentences'
tokens. -/
theorem chunkLoop_flatMap {q : Char → Bool}
    (hq : ∀ c, wsB c = true → q c = true) (minSize : ℕ) :
    ∀ (sents : List (List Char)) (cur : List (List Char)) (curLen : ℕ),
      (chunkLoop minSize cur curLen sents).flatMap (wordsBy q) =
        cur.flatMap (wordsBy q) ++ sents.flatMap (wordsBy q) := by
  have hsp : q ' ' = true := hq ' ' (by decide)
  intro sents
  induction sents with
  | nil =>
    intro cur curLen
    by_cases hcur : cur.isEmpty
    · simp [chunkLoop, hcur, List.isEmpty_iff.mp hcur]
    · simp only [chunkLoop, if_neg hcur, List.flatMap_cons, List.flatMap_nil,
        List.append_nil]
      rw [wordsBy_joinSpace hsp]
  | cons sent rest ih =>
    intro cur curLen
    rw [chunkLoop_cons]
    by_cases hempty : (pyStrip sent).isEmpty
    · rw [if_pos hempty, ih cur curLen]
      have : wordsBy q sent = [] := by
        rw [← wordsBy_pyStrip hq, List.isEmpty_iff.mp hempty]
        rfl
      simp [this]
    · rw [if_neg hempty]
      by_cases hflush : minSize ≤ curLen + (wordsBy wsB (pyStrip sent)).length
      · rw [if_pos hflush]
        rw [List.flatMap_append, ih [pyStrip sent] ((wordsBy wsB (pyStrip sent)).length)]
        have hsent : wordsBy q (pyStrip sent) = wordsBy q sent :=
          wordsBy_pyStrip hq sent
        by_cases hcur : cur.isEmpty
        · simp [hcur, List.isEmpty_iff.mp hcur, hsent]
        · rw [if_neg hcur]
          simp only [List.flatMap_cons, List.flatMap_nil, List.append_nil,
            List.flatMap_cons]
          rw [wordsBy_joinSpace hsp, hsent]
      · rw [if_neg hflush, ih (cur ++ [pyStrip sent]) _]
        rw [List.flatMap_append]
        simp only [List.flatMap_cons, List.flatMap_nil, List.append_nil]
        rw [wordsBy_pyStrip hq, List.append_assoc]

/-- Dropping the blank paragraphs and stripping does not change the token
stream. -/
theorem paragraphs_flatMap {q : Char → Bool}
    (hq : ∀ c, wsB c = true → q c = true) (l : List (List Char)) :
    (((l.map pyStrip).filter (fun p => !p.isEmpty)).flatMap (wordsBy q)) =
      l.flatMap (wordsBy q) := by
  induction l with
  | nil => rfl
  | cons x rest ih =>
    simp only [List.map_cons, List.filter_cons]
    by_cases hx : (pyStrip x).isEmpty
    · have hnil : wordsBy q x = [] := by
        rw [← wordsBy_pyStrip hq, List.isEmpty_iff.mp hx]
        rfl
      simp only [hx, Bool.not_true, Bool.false_eq_true, if_false, ih,
        List.flatMap_cons, hnil, List.nil_append]
    · simp only [Bool.not_eq_true] at hx
      simp only [hx, Bool.not_false, if_true, List.flatMap_cons, ih,
        wordsBy_pyStrip hq]

/-- The amended chunking round-trip: under the separator class
`whitespace ∪ {.!?}` the chunks reproduce exactly the tokens of the input
text. -/
theorem chunk_text_flatMap_sep (text : List Char) (minSize : ℕ) :
    (chunk_text text minSize).flatMap (wordsBy sepB) = wordsBy sepB text := by
  have hws : ∀ c, wsB c = true → sepB c = true := by
    intro c hc
    simp [sepB, hc]
  have hpunct : ∀ c, punctB c = true → sepB c = true := by
    intro c hc
    simp [sepB, hc]
  unfold chunk_text
  rw [List.flatMap_assoc]
  have hbranch : ∀ para ∈ (splitNN text).map pyStrip |>.filter (fun p => !p.isEmpty),
      ((if minSize ≤ (wordsBy wsB para).length then [para]
        else chunkLoop minSize [] 0 (reSplit punctB para)).flatMap (wordsBy sepB)) =
        wordsBy sepB para := by
    intro para _
    split_ifs
    · simp
    · rw [chunkLoop_flatMap hws minSize (reSplit punctB para) [] 0,
        List.flatMap_nil, List.nil_append, reSplit_flatMap hpunct]
  rw [List.flatMap_congr hbranch]
  rw [paragraphs_flatMap hws, splitNN_flatMap (by decide)]

theorem chunkLoop_nil (minSize : ℕ) (cur : List (List Char)) (curLen : ℕ) :
    chunkLoop minSize cur curLen [] =
      if cur.isEmpty then [] else [joinSpace cur] :=
  rfl

theorem words_ne_of_pyStrip_ne {s : List Char} (h : pyStrip s ≠ []) :
    wordsBy wsB s ≠ [] := by
  intro hw
  exact h (all_ws_pyStrip_nil ((wordsBy_eq_nil_iff wsB s).mp hw))

theorem joinSpace_words_ne {cur : List (List Char)} (hne : ¬cur.isEmpty = true)
    (hcur : ∀ x ∈ cur, wordsBy wsB x ≠ []) :
    wordsBy wsB (joinSpace cur) ≠ [] := by
  rw [wordsBy_joinSpace (by decide)]
  cases cur with
  | nil => exact absurd rfl hne
  | cons x xs =>
    simp only [List.flatMap_cons]
    intro heq
    rcases List.append_eq_nil.mp heq with ⟨h1, _⟩
    exact hcur x (List.mem_cons_self x xs) h1

/-- Every chunk emitted by the regrouping loop contains at least one word,
provided the pending buffer's sentences do. -/
theorem chunkLoop_chunks_words_ne (minSize : ℕ) :
    ∀ (sents : List (List Char)) (cur : List (List Char)) (curLen : ℕ),
      (∀ x ∈ cur, wordsBy wsB x ≠ []) →
      ∀ c ∈ chunkLoop minSize cur curLen sents, wordsBy wsB c ≠ [] := by
  intro sents
  induction sents with
  | nil =>
    intro cur curLen hcur c hc
    rw [chunkLoop_nil] at hc
    by_cases hce : cur.isEmpty
    · rw [if_pos hce] at hc
      cases hc
    · rw [if_neg hce] at hc
      rcases List.mem_singleton.mp hc with rfl
      exact joinSpace_words_ne hce hcur
  | cons sent rest ih =>
    intro cur curLen hcur c hc
    rw [chunkLoop_cons] at hc
    by_cases hempty : (pyStrip sent).isEmpty
    · rw [if_pos hempty] at hc
      exact ih cur curLen hcur c hc
    · rw [if_neg hempty] at hc
      have hstrip_ne : pyStrip sent ≠ [] := fun h =>
        hempty (List.isEmpty_iff.mpr h)
      have hsent : wordsBy wsB (pyStrip sent) ≠ [] := by
        rw [wordsBy_pyStrip (fun _ h => h)]
        exact words_ne_of_pyStrip_ne hstrip_ne
      by_cases hflush : minSize ≤ curLen + (wordsBy wsB (pyStrip sent)).length
      · rw [if_pos hflush] at hc
        rcases List.mem_append.mp hc with hleft | hright
        · by_cases hce : cur.isEmpty
          · rw [if_pos hce] at hleft
            cases hleft
          · rw [if_neg hce] at hleft
            rcases List.mem_singleton.mp hleft with rfl
            exact joinSpace_words_ne hce hcur
        · exact ih [pyStrip sent] _ (by
            intro x hx
            rcases List.mem_singleton.mp hx with rfl
            exact hsent) c hright
      · rw [if_neg hflush] at hc
        exact ih (cur ++ [pyStrip sent]) _ (by
          intro x hx
          rcases List.mem_append.mp hx with h | h
          · exact hcur x h
          · rcases List.mem_singleton.mp h with rfl
            exact hsent) c hc

/-- Every chunk produced by `_chunk_text` contains a word (is neither empty
nor whitespace-only). -/
theorem chunk_text_words_ne (text : List Char) (minSize : ℕ) :
    ∀ c ∈ chunk_text text minSize, wordsBy wsB c ≠ [] := by
  intro c hc
  unfold chunk_text at hc
  rcases List.mem_flatMap.mp hc with ⟨para, hpara, hcin⟩
  rcases List.mem_filter.mp hpara with ⟨hmap, hne⟩
  rcases List.mem_map.mp hmap with ⟨piece, _, rfl⟩
  have hstrip_ne : pyStrip piece ≠ [] := by
    simpa [List.isEmpty_iff] using hne
  have hwords : wordsBy wsB (pyStrip piece) ≠ [] := by
    rw [wordsBy_pyStrip (fun _ h => h)]
    exact words_ne_of_pyStrip_ne hstrip_ne
  split_ifs at hcin with hbig
  · rcases List.mem_singleton.mp hcin with rfl
    exact hwords
  · exact chunkLoop_chunks_words_ne minSize _ [] 0
      (by intro x hx; cases hx) c hcin

/-- C3 counterexample: the claim as stated — whitespace-normalised
concatenation of the chunks reproduces the input's non-blank content — fails
on `"Hi there. Bye now."`: the sentence splitter of `_chunk_text` discards
the `.` delimiters, so the chunk reads `"Hi there Bye now"` while the input
tokens still carry the periods. -/
theorem C3_roundtrip_counterexample :
    (chunk_text ("Hi there. Bye now.".toList) 100).flatMap (wordsBy wsB) ≠
      wordsBy wsB ("Hi there. Bye now.".toList) := by
  decide

/-- C3 (amended): concatenating all chunks reproduces the non-blank content
of the input text once whitespace is normalised **and the sentence
delimiters `.` `!` `?` are treated as separators** (they are discarded for
paragraphs below the minimum chunk size); and no chunk is empty or
whitespace-only. -/
theorem C3_chunking_roundtrip_amended (text : List Char) (minSize : ℕ) :
    (chunk_text text minSize).flatMap (wordsBy sepB) = wordsBy sepB text ∧
      (∀ c ∈ chunk_text text minSize, c ≠ [] ∧ c.all wsB = false) := by
  refine ⟨chunk_text_flatMap_sep text minSize, ?_⟩
  intro c hc
  have hw := chunk_text_words_ne text minSize c hc
  constructor
  · intro h
    subst h
    exact hw rfl
  · cases hall : c.all wsB
    · rfl
    · exact absurd ((wordsBy_eq_nil_iff wsB c).mpr hall) hw

/-- Witness for C3 (amended) at the two-paragraph demo text. -/
theorem C3_chunking_roundtrip_amended_witness :
    (demoChunk ∈ chunk_text demoText 100) ∧
      demoChunk ≠ [] ∧ demoChunk.all wsB = false :=
  ⟨by decide,
   (C3_chunking_roundtrip_amended demoText 100).2 demoChunk (by decide)⟩
